import Mathlib

/-!
Verification of the Azure Blob Storage IO adapter
(`sdks/python/apache_beam/io/azure/blobstorageio.py`).

Strings are modelled as `List Char` (the Python `str` of the source, one
code point per element) and byte sequences as `List Nat`.  Pure functions
of the source become Lean functions; the stateful Downloader/Uploader
become explicit state passing.  Components of the repository that the
source file imports but that are not part of it (the retry utility, the
filesystemio Downloader/Uploader base classes, the batch-delete facade)
are modelled from the specification and marked as such in their doc
comments.
-/

namespace BlobStorageIO

/-! ## Character classes of the locator regex

The source parses locators with
`re.match('^azfs://([a-z0-9]{3,24})/([a-z0-9](?![a-z0-9-]*--[a-z0-9-]*)[a-z0-9-]{1,61}[a-z0-9])/(.*)$', azfs_path)`.
-/

/-- The character class `[a-z0-9]` of the locator regex. -/
def isLowerAlnum (c : Char) : Bool :=
  ('a' ≤ c && c ≤ 'z') || ('0' ≤ c && c ≤ '9')

/-- The character class `[a-z0-9-]` of the locator regex. -/
def isLabelChar (c : Char) : Bool :=
  isLowerAlnum c || c == '-'

/-- Longest prefix of characters satisfying `p`, together with the rest.
A regex fragment `[C]*` (or a bounded repetition followed by a literal
that is not in the class `C`) consumes exactly such a maximal run. -/
def takeRun (p : Char → Bool) : List Char → List Char × List Char
  | [] => ([], [])
  | c :: cs =>
    if p c then
      let r := takeRun p cs
      (c :: r.1, r.2)
    else ([], c :: cs)

/-- Whether the string contains two consecutive hyphens.  The negative
lookahead `(?![a-z0-9-]*--[a-z0-9-]*)` of the container group fails
exactly when the maximal `[a-z0-9-]` run ahead contains `--`; since the
run of the container extends to the `/` separator, this is the same as
`--` occurring in the container after its first character. -/
def hasDoubleDash : List Char → Bool
  | c1 :: c2 :: rest => (c1 == '-' && c2 == '-') || hasDoubleDash (c2 :: rest)
  | _ => false

/-- The literal scheme prefix `azfs://`. -/
def schemeChars : List Char := ['a', 'z', 'f', 's', ':', '/', '/']

/-- Match the literal `^azfs://` at the start of the path. -/
def stripScheme (l : List Char) : Option (List Char) :=
  match l with
  | c1 :: c2 :: c3 :: c4 :: c5 :: c6 :: c7 :: rest =>
    if c1 == 'a' && c2 == 'z' && c3 == 'f' && c4 == 's' && c5 == ':' &&
        c6 == '/' && c7 == '/' then
      some rest
    else none
  | _ => none

/-- The container group
`[a-z0-9](?![a-z0-9-]*--[a-z0-9-]*)[a-z0-9-]{1,61}[a-z0-9]` followed by
the literal `/`: the container is the maximal `[a-z0-9-]` run before the
`/`, of total length 3 to 63, starting and ending with `[a-z0-9]`, with
no doubled hyphen (the lookahead, see `hasDoubleDash`). -/
def validContainerRun (cont : List Char) : Bool :=
  decide (3 ≤ cont.length) && decide (cont.length ≤ 63) &&
  (match cont.head? with
   | some c => isLowerAlnum c
   | none => false) &&
  (match cont.getLast? with
   | some c => isLowerAlnum c
   | none => false) &&
  !hasDoubleDash cont

/-- The trailing `(.*)$` of the locator regex, with Python semantics:
`.` matches any character except a newline, and `$` matches at the end
of the string or just before a newline that ends the string.  Hence the
group captures the whole remainder when it has no newline, captures the
remainder minus a single final newline when that is its only newline,
and fails to match otherwise. -/
def matchDotStarEnd (r : List Char) : Option (List Char) :=
  if r.contains '\n' then
    if r.getLast? == some '\n' && !r.dropLast.contains '\n' then
      some r.dropLast
    else none
  else some r

/-- The literal `/` separators of the locator regex. -/
def expectSlash : List Char → Option (List Char)
  | c :: rest => if c = '/' then some rest else none
  | [] => none

/-- `parse_azfs_path` of the source: match the locator regex and return
the `(storage-account, container, blob)` groups, `none` standing for the
`ValueError` the source raises.  The account group `([a-z0-9]{3,24})/`
can only consume the maximal `[a-z0-9]` run before a `/` (backtracking
to a shorter length leaves a class character where the `/` literal is
required), so it is parsed with `takeRun` plus a length check, and the
container group likewise (see `validContainerRun`).  After the groups,
`match.group(3) == '' and not blob_optional` raises. -/
def parse_azfs_path (azfs_path : List Char) (blob_optional : Bool := false) :
    Option (List Char × List Char × List Char) :=
  match stripScheme azfs_path with
  | none => none
  | some rest =>
    match expectSlash (takeRun isLowerAlnum rest).2 with
    | none => none
    | some r2 =>
      if 3 ≤ (takeRun isLowerAlnum rest).1.length ∧
          (takeRun isLowerAlnum rest).1.length ≤ 24 then
        match expectSlash (takeRun isLabelChar r2).2 with
        | none => none
        | some r4 =>
          if validContainerRun (takeRun isLabelChar r2).1 then
            match matchDotStarEnd r4 with
            | some key =>
              if key.isEmpty && !blob_optional then none
              else some ((takeRun isLowerAlnum rest).1,
                         (takeRun isLabelChar r2).1, key)
            | none => none
          else none
      else none

/-! ## Specification-side locator predicate

For the refinement claim about the locator format, a second definition
following the specification's words (section 6 of the design): account
matches `[a-z0-9]{3,24}`, container is DNS-label-like (alphanumeric,
internal hyphens, no doubled hyphens, 3-63 chars), key is the arbitrary
remaining path, empty only when listing. -/

/-- Specification's account condition: matches `[a-z0-9]{3,24}`. -/
def specIsAccount (a : List Char) : Bool :=
  decide (3 ≤ a.length) && decide (a.length ≤ 24) && a.all isLowerAlnum

/-- Specification's container condition: DNS-label-like, 3-63 chars,
alphanumeric with internal hyphens and no doubled hyphens. -/
def specIsContainer (c : List Char) : Bool :=
  decide (3 ≤ c.length) && decide (c.length ≤ 63) && c.all isLabelChar &&
  (match c.head? with
   | some ch => isLowerAlnum ch
   | none => false) &&
  (match c.getLast? with
   | some ch => isLowerAlnum ch
   | none => false) &&
  !hasDoubleDash c

/-- Specification's locator format: the path decomposes as
`azfs://<account>/<container>/<key>` with a valid account and container,
and the key (the arbitrary remaining path) is non-empty unless parsing
is done in a listing context (`blob_optional`). -/
def specLocatorOk (p : List Char) (blob_optional : Bool)
    (a c k : List Char) : Bool :=
  (p == schemeChars ++ a ++ '/' :: (c ++ '/' :: k)) &&
  specIsAccount a && specIsContainer c && (blob_optional || !k.isEmpty)

/-! ## Constants of the source file -/

/-- `DEFAULT_READ_BUFFER_SIZE = 16 * 1024 * 1024` of the source. -/
def DEFAULT_READ_BUFFER_SIZE : Nat := 16 * 1024 * 1024

/-- `MAX_BATCH_OPERATION_SIZE = 100` of the source. -/
def MAX_BATCH_OPERATION_SIZE : Nat := 100

/-! ## Error taxonomy

The specification's error taxonomy (section 7).  The source raises
`ValueError` for a malformed path or mode and defines
`BlobStorageIOError(IOError, retry.PermanentException)`; the retry
utility it imports classifies server errors and timeouts as transient. -/

/-- Error classes of the design: transient (network/5xx/timeout),
not-found (404), malformed locator, invalid open mode. -/
inductive StorageError where
  | transientError
  | notFoundError
  | invalidPathError
  | invalidModeError
deriving DecidableEq, Repr

/-! ## Listing (`BlobStorageIO.list_prefix`) -/

/-- A blob as returned by the listing service: a name and a size. -/
structure BlobItem where
  name : List Char
  size : Nat
deriving DecidableEq, Repr

/-- The full object identifier
`"azfs://%s/%s/%s" % (storage_account, container, item.name)` built by
`list_prefix` for each listed item. -/
def fullBlobName (storage_account container name : List Char) : List Char :=
  schemeChars ++ storage_account ++ '/' :: (container ++ '/' :: name)

/-- Python dict assignment `d[k] = v` on an insertion-ordered
association list: replace in place when the key is present, append
otherwise. -/
def dictInsert (m : List (List Char × Nat)) (k : List Char) (v : Nat) :
    List (List Char × Nat) :=
  if m.any (fun e => e.1 == k) then
    m.map (fun e => if e.1 == k then (k, v) else e)
  else m ++ [(k, v)]

/-- Model of the iterator returned by
`container_client.list_blobs(name_starts_with=blob)` (the Azure SDK's
`ItemPaged`): it follows continuation tokens page after page until no
next page remains and yields every page's items in order.  `pages` are
the pages the service returns for this container and prefix. -/
def list_blobs (pages : List (List BlobItem)) : List BlobItem := pages.flatten

/-- `BlobStorageIO.list_prefix` of the source: parse the path with
`blob_optional=True`, then iterate the listing response once (the
`while True:` loop bodies run exactly once before `break`), storing
`file_sizes[file_name] = item.size` for every item; `none` stands for
the `ValueError` of a malformed path. -/
def list_prefix (pages : List (List BlobItem)) (path : List Char) :
    Option (List (List Char × Nat)) :=
  match parse_azfs_path path true with
  | none => none
  | some (storage_account, container, _blob) =>
    some ((list_blobs pages).foldl
      (fun m item =>
        dictInsert m (fullBlobName storage_account container item.name) item.size)
      [])

/-! ## Retry policy

The source decorates `list_prefix` with
`@retry.with_exponential_backoff(retry_filter=retry_on_server_errors_and_timeout_filter)`
from `apache_beam.utils.retry`, which is not part of this repository's
source tree; the retry combinator is modelled from the specification
(sections 4.1 and 7). -/

/-- Modelled from the spec: the retry filter
(`retry_on_server_errors_and_timeout_filter`) — only `TransientError`
(network/5xx/timeout) is retryable; `NotFoundError` and
malformed-request errors are permanent. -/
def retryable : StorageError → Bool
  | .transientError => true
  | _ => false

/-- Modelled from the spec: the exponential backoff delay before retry
`i` — monotonically growing as `base * 2 ^ i`. -/
def backoffDelay (base i : Nat) : Nat := base * 2 ^ i

/-- Modelled from the spec: the bounded retry loop of
`with_exponential_backoff`.  `action i` is the outcome of attempt `i`
(the interaction with the remote service is modelled as a function from
attempt index to outcome); `remaining` is the number of attempts still
allowed.  Returns the final outcome together with the index one past
the last attempt made. -/
def retryExec {α : Type} (action : Nat → Except StorageError α) (i : Nat) :
    Nat → Except StorageError α × Nat
  | 0 => (.error .transientError, i)
  | remaining + 1 =>
    match action i with
    | .ok v => (.ok v, i + 1)
    | .error e =>
      if retryable e = true ∧ remaining ≠ 0 then retryExec action (i + 1) remaining
      else (.error e, i + 1)

/-- Modelled from the spec: run `action` with at most `budget` attempts,
retrying on retryable errors only.  Returns the outcome and the number
of attempts made. -/
def with_exponential_backoff {α : Type} (budget : Nat)
    (action : Nat → Except StorageError α) : Except StorageError α × Nat :=
  retryExec action 0 budget

/-- Modelled from the spec: the schedule of backoff delays a run of
`budget` attempts may sleep between consecutive attempts. -/
def backoffSchedule (base budget : Nat) : List Nat :=
  (List.range (budget - 1)).map (backoffDelay base)

/-! ## Opening a stream (`BlobStorageIO.open`) -/

/-- The stream object `BlobStorageIO.open` returns: an
`io.BufferedReader` over a `DownloaderStream` (buffered with
`read_buffer_size`) or an `io.BufferedWriter` over an `UploaderStream`
(buffered with `128 * 1024`). -/
inductive FileStream where
  | readStream (read_buffer_size : Nat)
  | writeStream (write_buffer_size : Nat)
deriving DecidableEq, Repr

/-- `BlobStorageIO.open` of the source: `'r'` and `'rb'` build the
downloader-backed read stream, `'w'` and `'wb'` build the
uploader-backed write stream, and any other mode raises
`ValueError('Invalid file open mode: ...')` without constructing a
downloader or uploader. -/
def openFile (mode : String)
    (read_buffer_size : Nat := DEFAULT_READ_BUFFER_SIZE) :
    Except StorageError FileStream :=
  if mode == "r" || mode == "rb" then
    .ok (.readStream read_buffer_size)
  else if mode == "w" || mode == "wb" then
    .ok (.writeStream (128 * 1024))
  else .error .invalidModeError

/-! ## Uploader

`BlobStorageUploader` (from `apache_beam.io.filesystemio`'s `Uploader`
contract) is referenced by `open` but its class body is not part of this
source tree; the uploader is modelled from the specification
(sections 3 and 4.2). -/

/-- Modelled from the spec: Uploader state — `{locator, block_size,
pending_buffer, committed_block_ids, finished}`; block ids are
identified with the block contents they name, kept in commit order. -/
structure UploaderState where
  block_size : Nat
  pending : List Nat
  blocks : List (List Nat)
  finished : Bool
deriving DecidableEq, Repr

/-- A fresh uploader: empty pending buffer, no committed blocks. -/
def uploaderInit (block_size : Nat) : UploaderState :=
  ⟨block_size, [], [], false⟩

/-- Modelled from the spec: while the pending buffer holds at least
`block_size` bytes, flush one full block (upload it, record its id in
order, clear the flushed portion). -/
def flushFull (bs : Nat) (pending : List Nat) (blocks : List (List Nat)) :
    List (List Nat) × List Nat :=
  if h : 0 < bs ∧ bs ≤ pending.length then
    flushFull bs (pending.drop bs) (blocks ++ [pending.take bs])
  else (blocks, pending)
termination_by pending.length
decreasing_by simp only [List.length_drop]; omega

/-- Modelled from the spec: `write(bytes)` appends to the pending
buffer and flushes full blocks; no further writes are accepted after
`finish()`. -/
def uploaderWrite (st : UploaderState) (data : List Nat) : UploaderState :=
  if st.finished then st
  else
    { st with
      blocks := (flushFull st.block_size (st.pending ++ data) st.blocks).1,
      pending := (flushFull st.block_size (st.pending ++ data) st.blocks).2 }

/-- Modelled from the spec: `finish()` flushes the remaining partial
block (the final block may be short) and commits the ordered block
sequence as the object's content. -/
def uploaderFinish (st : UploaderState) : List (List Nat) :=
  if st.pending.isEmpty then st.blocks else st.blocks ++ [st.pending]

/-- The bytes of the committed object: the blocks' contents concatenated
in commit order. -/
def committedBytes (blocks : List (List Nat)) : List Nat := blocks.flatten

/-! ## Downloader / read stream

`BlobStorageDownloader` is likewise referenced by `open` but not part of
this source tree; the seekable read stream it backs is modelled from the
specification (sections 4.1 and 8). -/

/-- Modelled from the spec: a read stream over an immutable object,
with a current position. -/
structure ReadStream where
  content : List Nat
  pos : Nat
deriving DecidableEq, Repr

/-- Modelled from the spec: `seek(pos)` — legal even beyond
end-of-object. -/
def seek (s : ReadStream) (o : Nat) : ReadStream := { s with pos := o }

/-- Modelled from the spec: `read(n)` returns the next at-most-`n`
bytes (fewer past end-of-object, never an error) and advances the
position by the number of bytes returned. -/
def readBytes (s : ReadStream) (n : Nat) : List Nat × ReadStream :=
  ((s.content.drop s.pos).take n,
   { s with pos := s.pos + ((s.content.drop s.pos).take n).length })

/-- Modelled from the spec: `tell()` reports the current position. -/
def tell (s : ReadStream) : Nat := s.pos

/-- The specification's slice notation `bytes[a : b]`, for comparison
with what the read stream returns. -/
def sliceSpec (l : List Nat) (a b : Nat) : List Nat := (l.take b).drop a

/-! ## Batch delete

`delete_batch` is exercised by the repository's tests but its body is
not part of this source tree; it is modelled from the specification
(section 4.3). -/

/-- Modelled from the spec: split a batch into sub-batches of at most
`n` items (`MAX_BATCH_OPERATION_SIZE` caps one call). -/
def chunksOf {α : Type} (n : Nat) (l : List α) : List (List α) :=
  match l with
  | [] => []
  | x :: xs =>
    if h : 0 < n then (x :: xs).take n :: chunksOf n ((x :: xs).drop n)
    else [x :: xs]
termination_by l.length
decreasing_by simp only [List.length_drop, List.length_cons]; omega

/-- Modelled from the spec: run one sub-batch — for every input item,
exactly one result record `(item, error | none)`, each item's operation
executed independently. -/
def run_batch {α : Type} (exec : α → Option StorageError) (items : List α) :
    List (α × Option StorageError) :=
  items.map (fun it => (it, exec it))

/-- Modelled from the spec: the `deleteObject` RPC — ack (`none`) when
the key exists in the store, `NotFoundError` otherwise. -/
def deleteObject (store : List (List Char)) (p : List Char) :
    Option StorageError :=
  if store.contains p then none else some .notFoundError

/-- Modelled from the spec: the per-item outcome of a batch delete —
not-found is reported as success (the desired end state is already
reached). -/
def deleteItemResult (store : List (List Char)) (p : List Char) :
    Option StorageError :=
  match deleteObject store p with
  | some .notFoundError => none
  | r => r

/-- Modelled from the spec: `delete_batch(paths)` — split into
sub-batches of at most `MAX_BATCH_OPERATION_SIZE`, run each, and report
the concatenated per-item results. -/
def delete_batch (store : List (List Char)) (paths : List (List Char)) :
    List (List Char × Option StorageError) :=
  ((chunksOf MAX_BATCH_OPERATION_SIZE paths).map
    (run_batch (deleteItemResult store))).flatten

/-! ## Lemmas about the locator parser -/

theorem takeRun_decomp (p : Char → Bool) (l : List Char) :
    (takeRun p l).1 ++ (takeRun p l).2 = l ∧
    (∀ c ∈ (takeRun p l).1, p c = true) ∧
    (∀ c, (takeRun p l).2.head? = some c → p c = false) := by
  induction l with
  | nil => simp [takeRun]
  | cons c cs ih =>
    cases hc : p c with
    | true =>
      simp only [takeRun, hc, if_true]
      refine ⟨by simpa using ih.1, ?_, ih.2.2⟩
      intro d hd
      rcases List.mem_cons.mp hd with h | h
      · exact h ▸ hc
      · exact ih.2.1 d h
    | false =>
      have hr : takeRun p (c :: cs) = ([], c :: cs) := by simp [takeRun, hc]
      rw [hr]
      refine ⟨rfl, by simp, ?_⟩
      intro d hd
      simp only [List.head?_cons, Option.some.injEq] at hd
      subst hd
      exact hc

theorem takeRun_append_eq (p : Char → Bool) (xs ys : List Char)
    (hxs : ∀ c ∈ xs, p c = true)
    (hys : ∀ c, ys.head? = some c → p c = false) :
    takeRun p (xs ++ ys) = (xs, ys) := by
  induction xs with
  | nil =>
    cases ys with
    | nil => rfl
    | cons y ys' => simp [takeRun, hys y rfl]
  | cons x xs' ih =>
    have hx : p x = true := hxs x (by simp)
    have := ih (fun c hc => hxs c (by simp [hc]))
    simp [takeRun, hx, this]

theorem stripScheme_eq_some (l r : List Char) :
    stripScheme l = some r ↔ l = schemeChars ++ r := by
  rcases l with _ | ⟨c1, _ | ⟨c2, _ | ⟨c3, _ | ⟨c4, _ | ⟨c5, _ | ⟨c6, _ | ⟨c7, rest⟩⟩⟩⟩⟩⟩⟩ <;>
    simp [stripScheme, schemeChars] <;> tauto

theorem expectSlash_cons_slash (r : List Char) :
    expectSlash ('/' :: r) = some r := by
  simp [expectSlash]

theorem expectSlash_eq_some (l r : List Char) :
    expectSlash l = some r ↔ l = '/' :: r := by
  cases l with
  | nil => simp [expectSlash]
  | cons c cs =>
    by_cases hc : c = '/'
    · subst hc; simp [expectSlash]
    · simp [expectSlash, hc]

theorem matchDotStarEnd_no_newline (r : List Char)
    (h : r.contains '\n' = false) : matchDotStarEnd r = some r := by
  have h' : ¬ '\n' ∈ r := by simpa using h
  simp [matchDotStarEnd, h']

theorem matchDotStarEnd_some (r k : List Char)
    (h : matchDotStarEnd r = some k) :
    k.contains '\n' = false ∧ (r = k ∨ r = k ++ ['\n']) := by
  unfold matchDotStarEnd at h
  split at h
  · next hcon =>
    split at h
    · next hlast =>
      simp only [Bool.and_eq_true, beq_iff_eq, Bool.not_eq_true'] at hlast
      injection h with h
      obtain ⟨hys, hr⟩ := List.getLast?_eq_some_iff.mp hlast.1
      subst hr
      rw [List.dropLast_concat] at h
      subst h
      exact ⟨by simpa using hlast.2, Or.inr rfl⟩
    · cases h
  · next hcon =>
    injection h with h
    subst h
    exact ⟨by simpa using hcon, Or.inl rfl⟩

theorem specIsContainer_of_run (c : List Char)
    (hall : ∀ ch ∈ c, isLabelChar ch = true)
    (hvc : validContainerRun c = true) : specIsContainer c = true := by
  simp only [validContainerRun, Bool.and_eq_true] at hvc
  simp only [specIsContainer, Bool.and_eq_true, List.all_eq_true]
  tauto

/-- Soundness of the locator parser: a successful parse decomposes the
path into scheme, account, container and key, where the account and
container satisfy the specification's conditions, the key is
newline-free and non-empty unless `blob_optional`, and the path is the
reassembled locator with at most one trailing newline swallowed by the
`$` anchor. -/
theorem parse_azfs_path_sound (p : List Char) (bo : Bool) (a c k : List Char)
    (h : parse_azfs_path p bo = some (a, c, k)) :
    specIsAccount a = true ∧ specIsContainer c = true ∧
    (bo || !k.isEmpty) = true ∧ k.contains '\n' = false ∧
    (p = schemeChars ++ a ++ '/' :: (c ++ '/' :: k) ∨
     p = schemeChars ++ a ++ '/' :: (c ++ '/' :: (k ++ ['\n']))) := by
  unfold parse_azfs_path at h
  split at h
  next => cases h
  next rest hs =>
  split at h
  next => cases h
  next r2 hsl1 =>
  have hp : p = schemeChars ++ rest := (stripScheme_eq_some p rest).mp hs
  obtain ⟨hd1, hmem1, _⟩ := takeRun_decomp isLowerAlnum rest
  have hr1 : (takeRun isLowerAlnum rest).2 = '/' :: r2 :=
    (expectSlash_eq_some _ _).mp hsl1
  split at h
  case isFalse => cases h
  case isTrue hlen =>
  obtain ⟨hd2, hmem2, _⟩ := takeRun_decomp isLabelChar r2
  split at h
  next => cases h
  next r4 hsl2 =>
  have hr3 : (takeRun isLabelChar r2).2 = '/' :: r4 :=
    (expectSlash_eq_some _ _).mp hsl2
  split at h
  case isFalse => cases h
  case isTrue hvc =>
  split at h
  case h_2 => cases h
  next key hmd =>
  split at h
  case isTrue => cases h
  case isFalse hne =>
  injection h with h
  simp only [Prod.mk.injEq] at h
  obtain ⟨hacct, hcont, hkey⟩ := h
  obtain ⟨hknl, hr4⟩ := matchDotStarEnd_some r4 key hmd
  rcases hE1 : takeRun isLowerAlnum rest with ⟨A, B⟩
  rw [hE1] at hd1 hmem1 hr1 hacct hlen
  rcases hE2 : takeRun isLabelChar r2 with ⟨C, D⟩
  rw [hE2] at hd2 hmem2 hr3 hcont hvc
  subst hacct; subst hcont; subst hkey
  subst hr1; subst hr3
  subst hd1; subst hd2
  refine ⟨?_, ?_, ?_, hknl, ?_⟩
  · simp only [specIsAccount, Bool.and_eq_true, List.all_eq_true,
      decide_eq_true_eq]
    exact ⟨⟨hlen.1, hlen.2⟩, hmem1⟩
  · exact specIsContainer_of_run _ hmem2 hvc
  · cases bo with
    | true => rfl
    | false =>
      cases hke : key.isEmpty with
      | false => simp [hke]
      | true => exact absurd (by simp [hke]) hne
  · rcases hr4 with hr4 | hr4 <;> subst hr4
    · exact Or.inl hp
    · exact Or.inr hp

/-- Completeness of the locator parser: a path assembled from a valid
account, a valid container and a newline-free key (non-empty unless
`blob_optional`) parses back to exactly those groups. -/
theorem parse_azfs_path_complete (bo : Bool) (a c k : List Char)
    (ha : specIsAccount a = true) (hc : specIsContainer c = true)
    (hk : k.contains '\n' = false) (hbo : (bo || !k.isEmpty) = true) :
    parse_azfs_path (schemeChars ++ a ++ '/' :: (c ++ '/' :: k)) bo
      = some (a, c, k) := by
  have hs : stripScheme (schemeChars ++ a ++ '/' :: (c ++ '/' :: k))
      = some (a ++ '/' :: (c ++ '/' :: k)) :=
    (stripScheme_eq_some _ _).mpr rfl
  simp only [specIsAccount, Bool.and_eq_true, List.all_eq_true,
    decide_eq_true_eq] at ha
  have hc' := hc
  simp only [specIsContainer, Bool.and_eq_true, List.all_eq_true,
    decide_eq_true_eq] at hc'
  have htr1 : takeRun isLowerAlnum (a ++ '/' :: (c ++ '/' :: k))
      = (a, '/' :: (c ++ '/' :: k)) := by
    refine takeRun_append_eq _ _ _ ha.2 ?_
    intro ch hch
    simp only [List.head?_cons, Option.some.injEq] at hch
    subst hch
    decide
  have htr2 : takeRun isLabelChar (c ++ '/' :: k) = (c, '/' :: k) := by
    refine takeRun_append_eq _ _ _ hc'.1.1.1.2 ?_
    intro ch hch
    simp only [List.head?_cons, Option.some.injEq] at hch
    subst hch
    decide
  have hvc : validContainerRun c = true := by
    simp only [validContainerRun, Bool.and_eq_true, decide_eq_true_eq]
    exact ⟨⟨⟨⟨hc'.1.1.1.1.1, hc'.1.1.1.1.2⟩, hc'.1.1.2⟩, hc'.1.2⟩, hc'.2⟩
  have hne : (k.isEmpty && !bo) = false := by
    cases bo <;> cases hke : k.isEmpty <;> simp_all
  unfold parse_azfs_path
  simp only [hs, htr1, htr2, expectSlash_cons_slash, hvc,
    matchDotStarEnd_no_newline k hk, hne, Bool.false_eq_true, if_false,
    if_true, eq_self_iff_true]
  rw [if_pos ⟨ha.1.1, ha.1.2⟩]

theorem contains_eq_false_iff (l : List Char) (ch : Char) :
    l.contains ch = false ↔ ch ∉ l := by
  simp [List.contains]

/-! ## Claim C1: locator validation -/

/-- C1 counterexample: the claim states that parsing succeeds for every
well-formed locator with an arbitrary non-empty key, but on the path
`azfs://abc/abc/a\nb` — whose key `a\nb` is non-empty and whose account
and container are valid — the parse fails, because the `.` of the
trailing `(.*)$` group never matches a newline. -/
theorem C1_counterexample :
    specLocatorOk
      ['a', 'z', 'f', 's', ':', '/', '/', 'a', 'b', 'c', '/', 'a', 'b', 'c',
       '/', 'a', '\n', 'b']
      false ['a', 'b', 'c'] ['a', 'b', 'c'] ['a', '\n', 'b'] = true ∧
    parse_azfs_path
      ['a', 'z', 'f', 's', ':', '/', '/', 'a', 'b', 'c', '/', 'a', 'b', 'c',
       '/', 'a', '\n', 'b']
      false = none := by
  decide

/-- C1 (amended): for every locator string containing no newline
character, parsing succeeds and returns the (account, container, key)
triple exactly when the account part matches `[a-z0-9]{3,24}`, the
container part is a DNS-label-like name of 3-63 characters (lowercase
alphanumeric with internal hyphens and no doubled hyphens), and the key
part is non-empty unless parsing is done in a listing context
(`blob_optional`); every malformed locator fails (with a path error, no
RPC being modelled in the parser at all). -/
theorem C1_locator_validation (p : List Char) (bo : Bool) (a c k : List Char)
    (hnl : p.contains '\n' = false) :
    parse_azfs_path p bo = some (a, c, k) ↔ specLocatorOk p bo a c k = true := by
  constructor
  · intro h
    obtain ⟨ha, hc, hbo, _, hdec | hdec⟩ := parse_azfs_path_sound p bo a c k h
    · simp only [specLocatorOk, Bool.and_eq_true, beq_iff_eq]
      exact ⟨⟨⟨hdec, ha⟩, hc⟩, hbo⟩
    · exfalso
      rw [contains_eq_false_iff] at hnl
      apply hnl
      rw [hdec]
      simp
  · intro h
    simp only [specLocatorOk, Bool.and_eq_true, beq_iff_eq] at h
    obtain ⟨⟨⟨hdec, ha⟩, hc⟩, hbo⟩ := h
    subst hdec
    rw [contains_eq_false_iff] at hnl
    have hk : k.contains '\n' = false := by
      rw [contains_eq_false_iff]
      intro hm
      exact hnl (by simp [hm])
    exact parse_azfs_path_complete bo a c k ha hc hk hbo

/-- Witness for C1: a concrete newline-free locator on which the
equivalence is applied in both directions. -/
theorem C1_locator_validation_witness :
    parse_azfs_path
      ['a', 'z', 'f', 's', ':', '/', '/', 'a', 'b', 'c', '/', 'c', 'o', 'n',
       '/', 'k'] false
      = some (['a', 'b', 'c'], ['c', 'o', 'n'], ['k']) :=
  (C1_locator_validation
    ['a', 'z', 'f', 's', ':', '/', '/', 'a', 'b', 'c', '/', 'c', 'o', 'n',
     '/', 'k']
    false ['a', 'b', 'c'] ['c', 'o', 'n'] ['k'] (by decide)).mpr (by decide)

/-! ## Claim C10: parsing as a right inverse of formatting -/

/-- C10 counterexample: on the path `azfs://abc/abc/k` followed by a
newline, parsing succeeds with key `k` (the `$` anchor silently drops
the final newline), so reassembling `azfs://` + account + `/` +
container + `/` + key does not give back the original path. -/
theorem C10_counterexample :
    parse_azfs_path
      ['a', 'z', 'f', 's', ':', '/', '/', 'a', 'b', 'c', '/', 'a', 'b', 'c',
       '/', 'k', '\n'] false
      = some (['a', 'b', 'c'], ['a', 'b', 'c'], ['k']) ∧
    schemeChars ++ ['a', 'b', 'c'] ++ '/' :: (['a', 'b', 'c'] ++ '/' :: ['k'])
      ≠ ['a', 'z', 'f', 's', ':', '/', '/', 'a', 'b', 'c', '/', 'a', 'b', 'c',
         '/', 'k', '\n'] := by
  decide

/-- C10 (amended): for every path that does not end with a newline
character, if `parse_azfs_path` succeeds with `(account, container,
key)` then `azfs://` + account + `/` + container + `/` + key equals the
original path. -/
theorem C10_parse_right_inverse (p : List Char) (bo : Bool)
    (a c k : List Char) (hlast : p.getLast? ≠ some '\n')
    (h : parse_azfs_path p bo = some (a, c, k)) :
    schemeChars ++ a ++ '/' :: (c ++ '/' :: k) = p := by
  obtain ⟨_, _, _, _, hdec | hdec⟩ := parse_azfs_path_sound p bo a c k h
  · exact hdec.symm
  · exfalso
    apply hlast
    rw [hdec,
      show schemeChars ++ a ++ '/' :: (c ++ '/' :: (k ++ ['\n']))
        = (schemeChars ++ a ++ '/' :: (c ++ '/' :: k)) ++ ['\n'] by simp]
    exact List.getLast?_concat _

/-- Witness for C10: the right-inverse law applied at a concrete
parsed path. -/
theorem C10_parse_right_inverse_witness :
    schemeChars ++ ['a', 'b', 'c'] ++ '/' ::
        (['c', 'o', 'n'] ++ '/' :: ['x', '/', 'y'])
      = ['a', 'z', 'f', 's', ':', '/', '/', 'a', 'b', 'c', '/', 'c', 'o', 'n',
         '/', 'x', '/', 'y'] :=
  C10_parse_right_inverse
    ['a', 'z', 'f', 's', ':', '/', '/', 'a', 'b', 'c', '/', 'c', 'o', 'n',
     '/', 'x', '/', 'y']
    false ['a', 'b', 'c'] ['c', 'o', 'n'] ['x', '/', 'y']
    (by decide) (by decide)

/-! ## Claim C2: prefix listing -/

theorem dictInsert_not_mem (m : List (List Char × Nat)) (k : List Char)
    (v : Nat) (h : ∀ e ∈ m, e.1 ≠ k) : dictInsert m k v = m ++ [(k, v)] := by
  unfold dictInsert
  rw [if_neg]
  simp only [List.any_eq_true, beq_iff_eq, not_exists]
  intro e
  intro hc
  exact absurd hc.2 (h e hc.1)

theorem foldl_dictInsert_eq_append (f : BlobItem → List Char) :
    ∀ (items : List BlobItem) (m : List (List Char × Nat)),
      items.Pairwise (fun i j => f i ≠ f j) →
      (∀ e ∈ m, ∀ it ∈ items, e.1 ≠ f it) →
      items.foldl (fun acc it => dictInsert acc (f it) it.size) m
        = m ++ items.map (fun it => (f it, it.size))
  | [], m, _, _ => by simp
  | it :: its, m, hdist, hm => by
    simp only [List.foldl_cons, List.map_cons]
    rw [dictInsert_not_mem _ _ _ (fun e he => hm e he it (by simp))]
    rw [foldl_dictInsert_eq_append f its (m ++ [(f it, it.size)])
      (List.pairwise_cons.mp hdist).2 ?_]
    · simp
    · intro e he it' hit'
      rcases List.mem_append.mp he with he | he
      · exact hm e he it' (by simp [hit'])
      · simp only [List.mem_singleton] at he
        subst he
        exact (List.pairwise_cons.mp hdist).1 it' hit'

theorem fullBlobName_inj (acct cont n1 n2 : List Char)
    (h : fullBlobName acct cont n1 = fullBlobName acct cont n2) : n1 = n2 := by
  simpa [fullBlobName] using h

/-- C2: for every prefix listing request whose path parses, the mapping
`list_prefix` returns is the union of all pages of the listing RPC, one
entry `(full identifier, size)` per listed item, in order, with no entry
lost and no entry duplicated (the keys are pairwise distinct), and
calling it twice with no mutation in between yields identical
key-to-size mappings. -/
theorem C2_list_prefix_pages (pages : List (List BlobItem))
    (path acct cont blob : List Char)
    (hparse : parse_azfs_path path true = some (acct, cont, blob))
    (hdist : (list_blobs pages).Pairwise (fun i j => i.name ≠ j.name)) :
    list_prefix pages path
      = some ((list_blobs pages).map
          (fun it => (fullBlobName acct cont it.name, it.size))) ∧
    ((list_blobs pages).map
        (fun it => (fullBlobName acct cont it.name, it.size))).Pairwise
      (fun e1 e2 => e1.1 ≠ e2.1) ∧
    list_prefix pages path = list_prefix pages path := by
  have hdistF : (list_blobs pages).Pairwise
      (fun i j => fullBlobName acct cont i.name ≠ fullBlobName acct cont j.name) := by
    refine hdist.imp ?_
    intro i j hne he
    exact hne (fullBlobName_inj acct cont i.name j.name he)
  refine ⟨?_, ?_, rfl⟩
  · simp only [ list_prefix, hparse]
    rw [foldl_dictInsert_eq_append (fun it => fullBlobName acct cont it.name)
      (list_blobs pages) [] hdistF (by simp)]
    simp
  · rw [List.pairwise_map]
    exact hdistF

/-- Witness for C2: a two-page listing with three distinct blobs. -/
theorem C2_list_prefix_pages_witness :
    list_prefix
      [[⟨['f', '1'], 2⟩, ⟨['f', '2'], 3⟩], [⟨['f', '3'], 5⟩]]
      ['a', 'z', 'f', 's', ':', '/', '/', 'a', 'b', 'c', '/', 'c', 'o', 'n',
       '/']
      = some
          ((list_blobs
              [[⟨['f', '1'], 2⟩, ⟨['f', '2'], 3⟩], [⟨['f', '3'], 5⟩]]).map
            (fun it => (fullBlobName ['a', 'b', 'c'] ['c', 'o', 'n'] it.name,
              it.size))) :=
  (C2_list_prefix_pages
    [[⟨['f', '1'], 2⟩, ⟨['f', '2'], 3⟩], [⟨['f', '3'], 5⟩]]
    ['a', 'z', 'f', 's', ':', '/', '/', 'a', 'b', 'c', '/', 'c', 'o', 'n', '/']
    ['a', 'b', 'c'] ['c', 'o', 'n'] [] (by decide) (by decide)).1

/-! ## Claim C3: retry policy -/

theorem retryExec_attempts_le {α : Type}
    (action : Nat → Except StorageError α) :
    ∀ (remaining i : Nat), (retryExec action i remaining).2 ≤ i + remaining
  | 0, i => by simp [retryExec]
  | r + 1, i => by
    cases h : action i with
    | ok v => simp [retryExec, h]
    | error e =>
      simp only [retryExec, h]
      split
      · calc (retryExec action (i + 1) r).2
            ≤ (i + 1) + r := retryExec_attempts_le action r (i + 1)
          _ ≤ i + (r + 1) := by omega
      · simp only
        omega

/-- C3: only `TransientError` is retried, within the bounded attempt
budget, and backoff delays grow strictly: a transient failure of the
first attempt is invisible to the caller when the second attempt
succeeds, a `NotFoundError` on the first attempt propagates immediately
after exactly one attempt with no retry, the number of attempts never
exceeds the budget, and the schedule of backoff delays is strictly
increasing. -/
theorem C3_retry_policy {α : Type} (action : Nat → Except StorageError α)
    (budget base : Nat) (v : α) (hb : 2 ≤ budget) (hbase : 0 < base) :
    (action 0 = .error .transientError → action 1 = .ok v →
      with_exponential_backoff budget action = (.ok v, 2)) ∧
    (action 0 = .error .notFoundError →
      with_exponential_backoff budget action = (.error .notFoundError, 1)) ∧
    (with_exponential_backoff budget action).2 ≤ budget ∧
    (backoffSchedule base budget).Pairwise (· < ·) := by
  obtain ⟨b, rfl⟩ : ∃ b, budget = b + 2 := ⟨budget - 2, by omega⟩
  refine ⟨?_, ?_, ?_, ?_⟩
  · intro h0 h1
    simp [with_exponential_backoff, retryExec, h0, h1, retryable]
  · intro h0
    simp [with_exponential_backoff, retryExec, h0, retryable]
  · simpa [with_exponential_backoff] using
      retryExec_attempts_le action (b + 2) 0
  · unfold backoffSchedule
    rw [List.pairwise_map]
    refine (List.pairwise_lt_range _).imp ?_
    intro i j hij
    exact (Nat.mul_lt_mul_left hbase).mpr
      (Nat.pow_lt_pow_right (by norm_num) hij)

/-- Witness for C3: a concrete action failing transiently once, a
concrete action failing with not-found, with budget 3 and base 1. -/
theorem C3_retry_policy_witness :
    with_exponential_backoff 3
        (fun i => if i = 0 then .error .transientError else .ok 7)
      = (.ok 7, 2) ∧
    with_exponential_backoff 3
        (fun _ => (.error .notFoundError : Except StorageError Nat))
      = (.error .notFoundError, 1) :=
  ⟨(C3_retry_policy (fun i => if i = 0 then .error .transientError else .ok 7)
      3 1 7 (by decide) (by decide)).1 (by rfl) (by rfl),
   (C3_retry_policy (fun _ => (.error .notFoundError : Except StorageError Nat))
      3 1 0 (by decide) (by decide)).2.1 (by rfl)⟩

/-! ## Claims C4 and C9: open-mode dispatch -/

theorem openFile_other_mode (m : String) (bs : Nat) (h1 : m ≠ "r")
    (h2 : m ≠ "rb") (h3 : m ≠ "w") (h4 : m ≠ "wb") :
    openFile m bs = .error .invalidModeError := by
  unfold openFile
  rw [if_neg (by simp [h1, h2]), if_neg (by simp [h3, h4])]

/-- C4: for every locator and mode, `open` returns a read stream when
the mode is a read mode (`'r'`/`'rb'`), a write stream when the mode is
a write mode (`'w'`/`'wb'`), and fails with the invalid-mode error for
every other mode. -/
theorem C4_open_mode_dispatch (mode : String) (bs : Nat) :
    ((mode = "r" ∨ mode = "rb") →
      openFile mode bs = .ok (.readStream bs)) ∧
    ((mode = "w" ∨ mode = "wb") →
      openFile mode bs = .ok (.writeStream (128 * 1024))) ∧
    (mode ≠ "r" → mode ≠ "rb" → mode ≠ "w" → mode ≠ "wb" →
      openFile mode bs = .error .invalidModeError) := by
  refine ⟨?_, ?_, openFile_other_mode mode bs⟩
  · rintro (rfl | rfl) <;> rfl
  · rintro (rfl | rfl) <;> rfl

/-- Witness for C4: the dispatch applied at a read mode and at an
unsupported mode. -/
theorem C4_open_mode_dispatch_witness :
    openFile "rb" 64 = .ok (.readStream 64) ∧
    openFile "a" 64 = .error .invalidModeError :=
  ⟨(C4_open_mode_dispatch "rb" 64).1 (Or.inr rfl),
   (C4_open_mode_dispatch "a" 64).2.2 (by decide) (by decide) (by decide)
     (by decide)⟩

/-- C9: `open` accepts exactly the four mode strings `'r'`, `'rb'`,
`'w'`, `'wb'`; the binary variants behave as their plain counterparts;
every other mode string yields the invalid-mode error and no stream is
constructed. -/
theorem C9_open_mode_exact (mode : String) (bs : Nat) :
    ((∃ s, openFile mode bs = .ok s) ↔
      mode = "r" ∨ mode = "rb" ∨ mode = "w" ∨ mode = "wb") ∧
    openFile "rb" bs = openFile "r" bs ∧
    openFile "wb" bs = openFile "w" bs ∧
    (¬(mode = "r" ∨ mode = "rb" ∨ mode = "w" ∨ mode = "wb") →
      openFile mode bs = .error .invalidModeError) := by
  refine ⟨⟨?_, ?_⟩, rfl, rfl, ?_⟩
  · rintro ⟨s, hs⟩
    by_contra hno
    push_neg at hno
    rw [openFile_other_mode mode bs hno.1 hno.2.1 hno.2.2.1 hno.2.2.2] at hs
    cases hs
  · rintro (rfl | rfl | rfl | rfl) <;> exact ⟨_, rfl⟩
  · intro hno
    push_neg at hno
    exact openFile_other_mode mode bs hno.1 hno.2.1 hno.2.2.1 hno.2.2.2

/-- Witness for C9: the mode `'kb'` is outside the accepted set, so
`open` rejects it. -/
theorem C9_open_mode_exact_witness :
    openFile "kb" 32 = Except.error StorageError.invalidModeError :=
  (C9_open_mode_exact "kb" 32).2.2.2 (by decide)

/-! ## Claim C5: uploader round trip -/

/-- Flushing full blocks moves bytes from the pending buffer into the
committed block sequence without losing, duplicating or reordering any
byte. -/
theorem flushFull_flatten (bs : Nat) (pending : List Nat)
    (blocks : List (List Nat)) :
    (flushFull bs pending blocks).1.flatten ++ (flushFull bs pending blocks).2
      = blocks.flatten ++ pending := by
  rw [flushFull]
  split
  next h =>
    rw [flushFull_flatten bs (pending.drop bs) (blocks ++ [pending.take bs])]
    simp
  next h => rfl
termination_by pending.length
decreasing_by simp only [List.length_drop]; omega

theorem uploaderWrite_flatten (st : UploaderState) (data : List Nat)
    (h : st.finished = false) :
    (uploaderWrite st data).blocks.flatten ++ (uploaderWrite st data).pending
      = st.blocks.flatten ++ st.pending ++ data ∧
    (uploaderWrite st data).finished = false := by
  unfold uploaderWrite
  rw [if_neg (by simp [h])]
  refine ⟨?_, h⟩
  rw [flushFull_flatten]
  simp

theorem foldl_uploaderWrite_flatten (writes : List (List Nat)) :
    ∀ (st : UploaderState), st.finished = false →
      (writes.foldl uploaderWrite st).blocks.flatten
          ++ (writes.foldl uploaderWrite st).pending
        = st.blocks.flatten ++ st.pending ++ writes.flatten ∧
      (writes.foldl uploaderWrite st).finished = false := by
  induction writes with
  | nil => intro st h; exact ⟨by simp, h⟩
  | cons w ws ih =>
    intro st h
    obtain ⟨hw, hf⟩ := uploaderWrite_flatten st w h
    obtain ⟨hih, hfin⟩ := ih (uploaderWrite st w) hf
    refine ⟨?_, hfin⟩
    rw [List.foldl_cons, hih, hw]
    simp

theorem committedBytes_uploaderFinish (st : UploaderState) :
    committedBytes (uploaderFinish st) = st.blocks.flatten ++ st.pending := by
  unfold uploaderFinish committedBytes
  split
  next h => simp [List.isEmpty_iff.mp h]
  next h => simp

/-- C5: for every block size and every way of splitting a byte sequence
across `write()` calls, after `finish()` the committed object's bytes
are exactly the concatenation of the written bytes in write order —
independent of block boundaries (the block size is universally
quantified and the final short block is included). -/
theorem C5_uploader_round_trip (bs : Nat) (writes : List (List Nat)) :
    committedBytes
        (uploaderFinish (writes.foldl uploaderWrite (uploaderInit bs)))
      = writes.flatten := by
  obtain ⟨h, _⟩ := foldl_uploaderWrite_flatten writes (uploaderInit bs) rfl
  rw [committedBytes_uploaderFinish, h]
  simp [uploaderInit]

/-! ## Claim C6: seek and read semantics -/

theorem take_min_length (l : List Nat) (a : Nat) :
    l.take (min a l.length) = l.take a := by
  rcases Nat.le_total a l.length with h | h
  · rw [Nat.min_eq_left h]
  · rw [Nat.min_eq_right h, List.take_length, List.take_of_length_le h]

/-- C6: on a stream over an object of `size` bytes, `seek(o)` followed
by `read(n)` returns `bytes[o : min(o+n, size)]` whenever `o ≤ size`;
for `o > size` the seek is legal and the read returns zero bytes; a
read past end-of-object returns fewer bytes than requested and is never
an error (the result always exists and has length at most `n`). -/
theorem C6_seek_read (content : List Nat) (o n : Nat) :
    (o ≤ content.length →
      (readBytes (seek ⟨content, 0⟩ o) n).1
        = sliceSpec content o (min (o + n) content.length)) ∧
    (content.length < o → (readBytes (seek ⟨content, 0⟩ o) n).1 = []) ∧
    (readBytes (seek ⟨content, 0⟩ o) n).1.length ≤ n := by
  refine ⟨?_, ?_, ?_⟩
  · intro _
    simp only [readBytes, seek, sliceSpec]
    rw [take_min_length, List.drop_take]
    simp
  · intro h
    simp only [readBytes, seek]
    rw [List.drop_eq_nil_of_le (Nat.le_of_lt h)]
    simp
  · simp only [readBytes, seek, List.length_take]
    omega

/-- Witness for C6: the slice law applied on a three-byte object at
offset 1, and the empty read beyond end-of-object at offset 9. -/
theorem C6_seek_read_witness :
    (readBytes (seek ⟨[10, 20, 30], 0⟩ 1) 5).1
        = sliceSpec [10, 20, 30] 1 (min (1 + 5) 3) ∧
    (readBytes (seek ⟨[10, 20, 30], 0⟩ 9) 4).1 = [] :=
  ⟨(C6_seek_read [10, 20, 30] 1 5).1 (by decide),
   (C6_seek_read [10, 20, 30] 9 4).2.1 (by decide)⟩

/-! ## Claims C7 and C8: batch operations -/

theorem chunksOf_flatten {α : Type} (n : Nat) :
    ∀ (l : List α), (chunksOf n l).flatten = l
  | [] => by simp [chunksOf]
  | x :: xs => by
    rw [chunksOf]
    split
    next h =>
      simp only [List.flatten_cons, chunksOf_flatten n ((x :: xs).drop n)]
      exact List.take_append_drop n (x :: xs)
    next h => simp
termination_by l => l.length
decreasing_by simp only [List.length_drop, List.length_cons]; omega

theorem flatten_map_map {α β : Type} (g : α → β) :
    ∀ (L : List (List α)), (L.map (List.map g)).flatten = L.flatten.map g
  | [] => rfl
  | l :: L => by
    simp only [List.map_cons, List.flatten_cons, List.map_append,
      flatten_map_map g L]

/-- Splitting a batch into sub-batches of at most
`MAX_BATCH_OPERATION_SIZE` and concatenating the per-sub-batch results
reports exactly the per-item results over the whole input. -/
theorem delete_batch_eq_run_batch (store : List (List Char))
    (paths : List (List Char)) :
    delete_batch store paths = run_batch (deleteItemResult store) paths := by
  unfold delete_batch run_batch
  rw [flatten_map_map, chunksOf_flatten]

/-- C7: a batch operation returns exactly one result record per input
item — the result list has the input's size, its items carry the input
items in input order, the record at index `i` is the pair of input item
`i` and that item's own outcome, and an item's record is unchanged under
any change of the other items' outcomes (no item's failure prevents the
others from completing and being reported); the facade's `delete_batch`
(sub-batched at `MAX_BATCH_OPERATION_SIZE`) reports exactly these
per-item results. -/
theorem C7_batch_one_result_per_item {α : Type}
    (exec exec2 : α → Option StorageError) (items : List α)
    (store : List (List Char)) (paths : List (List Char)) :
    (run_batch exec items).length = items.length ∧
    (run_batch exec items).map Prod.fst = items ∧
    (∀ (i : Nat), (run_batch exec items)[i]?
      = (items[i]?).map (fun it => (it, exec it))) ∧
    (∀ (i : Nat) (it : α), items[i]? = some it → exec it = exec2 it →
      (run_batch exec items)[i]? = (run_batch exec2 items)[i]?) ∧
    delete_batch store paths = run_batch (deleteItemResult store) paths := by
  refine ⟨by simp [run_batch], by simp [run_batch, Function.comp_def], ?_, ?_,
    delete_batch_eq_run_batch store paths⟩
  · intro i
    simp [run_batch]
  · intro i it hit hsame
    simp [run_batch, hit, hsame]

/-- Witness for C7: per-item independence applied at a concrete batch
where another item's outcome differs. -/
theorem C7_batch_one_result_per_item_witness :
    (run_batch (fun p => deleteObject [['a']] p) [['a'], ['b']])[0]?
      = (run_batch (fun p => deleteItemResult [['a']] p)
          [['a'], ['b']])[0]? :=
  (C7_batch_one_result_per_item (fun p => deleteObject [['a']] p)
    (fun p => deleteItemResult [['a']] p) [['a'], ['b']] [] []).2.2.2.1
    0 ['a'] (by decide) (by decide)

/-- Every per-item delete outcome is a success: an existing key is
acknowledged and an absent key's `NotFoundError` is reported as success
(the desired end state is already reached). -/
theorem deleteItemResult_eq_none (store : List (List Char)) (p : List Char) :
    deleteItemResult store p = none := by
  unfold deleteItemResult deleteObject
  by_cases h : store.contains p = true
  · rw [if_pos h]
  · rw [if_neg h]

/-- C8: a batch delete over any mix of existing and non-existing keys
reports one result per input key in input order; every key that existed
in the store is reported as success, every non-existing key is reported
as success (already-deleted), and in fact every result record carries no
error, so no item's outcome aborts the others. -/
theorem C8_delete_batch_success (store : List (List Char))
    (paths : List (List Char)) :
    (delete_batch store paths).map Prod.fst = paths ∧
    (∀ p ∈ paths, store.contains p = true →
      (p, (none : Option StorageError)) ∈ delete_batch store paths) ∧
    (∀ p ∈ paths, store.contains p = false →
      (p, (none : Option StorageError)) ∈ delete_batch store paths) ∧
    (∀ pr ∈ delete_batch store paths, pr.2 = (none : Option StorageError)) := by
  rw [delete_batch_eq_run_batch]
  refine ⟨by simp [run_batch, Function.comp_def], ?_, ?_, ?_⟩
  · intro p hp _
    simp only [run_batch, List.mem_map]
    exact ⟨p, hp, by rw [deleteItemResult_eq_none]⟩
  · intro p hp _
    simp only [run_batch, List.mem_map]
    exact ⟨p, hp, by rw [deleteItemResult_eq_none]⟩
  · intro pr hpr
    simp only [run_batch, List.mem_map] at hpr
    obtain ⟨p, _, hpr⟩ := hpr
    rw [← hpr, deleteItemResult_eq_none]

/-- Witness for C8: a batch delete of one existing key and one absent
key, both reported as success. -/
theorem C8_delete_batch_success_witness :
    (['a'], (none : Option StorageError))
        ∈ delete_batch [['a']] [['a'], ['b']] ∧
    (['b'], (none : Option StorageError))
        ∈ delete_batch [['a']] [['a'], ['b']] :=
  ⟨(C8_delete_batch_success [['a']] [['a'], ['b']]).2.1 ['a'] (by decide)
      (by decide),
   (C8_delete_batch_success [['a']] [['a'], ['b']]).2.2.1 ['b'] (by decide)
      (by decide)⟩

end BlobStorageIO
